import Mathlib

/-! Verification development for the rule-based extractive document summarizer
(`RAGSummarizer` in `app.py`).  The Python class is shallowly embedded:
the NLTK tokenizers (`sent_tokenize`, `word_tokenize`) and the stop-word
list are external data, so they are passed as explicit parameters; the
pure string processing (Python `str.split`, `str.strip`, `str.lower`,
substring `in`, `Counter.most_common`, stable `list.sort(reverse=True)`)
is modelled at the level of character lists.
-/

namespace DocSum

/-- Model of the Python substring-at-front test at the character level. -/
def seqStarts : List Char → List Char → Bool
  | [], _ => true
  | _ :: _, [] => false
  | c :: cs, d :: ds => c == d && seqStarts cs ds

/-- Model of the Python `needle in hay` substring containment test. -/
def seqIn (needle : List Char) : List Char → Bool
  | [] => seqStarts needle []
  | d :: ds => seqStarts needle (d :: ds) || seqIn needle ds

/-- Model of Python `str.lower()` (ASCII case folding, as used on this data). -/
def lowerStr (s : String) : String := ⟨s.data.map Char.toLower⟩

/-- Model of `w.lower() in s.lower()` from the source. -/
def inLower (w s : String) : Bool := seqIn (lowerStr w).data (lowerStr s).data

/-- Model of `k in s` (plain Python substring test). -/
def inStr (k s : String) : Bool := seqIn k.data s.data

/-- Model of Python `str.isalpha()`. -/
def pyIsAlpha (w : String) : Bool := !w.data.isEmpty && w.data.all (fun c => c.isAlpha)

/-- Maximal runs of non-whitespace characters; `acc` is the current
(reversed) partial word.  Model of Python `str.split()` with no argument. -/
def pyWordsAux : List Char → List Char → List (List Char)
  | [], acc => if acc.isEmpty then [] else [acc.reverse]
  | c :: cs, acc =>
      if c.isWhitespace then
        if acc.isEmpty then pyWordsAux cs [] else acc.reverse :: pyWordsAux cs []
      else pyWordsAux cs (c :: acc)

def pyWords (l : List Char) : List (List Char) := pyWordsAux l []

/-- Join words with single spaces (model of the Python space-join). -/
def joinSp : List (List Char) → List Char
  | [] => []
  | [w] => w
  | w :: ws => w ++ ' ' :: joinSp ws

/-- Model of space-joining `s.split()`: collapse internal whitespace, trim ends. -/
def normWS (s : String) : String := ⟨joinSp (pyWords s.data)⟩

/-- Remove trailing whitespace characters. -/
def dropTrailWS : List Char → List Char
  | [] => []
  | c :: cs =>
    match dropTrailWS cs with
    | [] => if c.isWhitespace then [] else [c]
    | r => c :: r

/-- Model of Python `str.strip()` (characters of the stripped string). -/
def pyStripped (s : String) : List Char :=
  dropTrailWS (s.data.dropWhile (fun c => c.isWhitespace))

/-- Model of space-joining `sentence.strip().split()` from the source. -/
def cleanSentence (s : String) : String := ⟨joinSp (pyWords (pyStripped s))⟩

/-- Stable descending insertion by first component: the inserted pair goes
in front of the first pair whose score is `≤` its own.  Together with
`sortDesc` this models the stable Python `list.sort(reverse=True, key=fst)`. -/
def insertDesc (p : Nat × String) : List (Nat × String) → List (Nat × String)
  | [] => [p]
  | q :: qs => if q.1 ≤ p.1 then p :: q :: qs else q :: insertDesc p qs

/-- Stable sort, descending by score (model of
`list.sort(reverse=True, key=lambda x: x[0])`). -/
def sortDesc : List (Nat × String) → List (Nat × String)
  | [] => []
  | p :: ps => insertDesc p (sortDesc ps)

/-! ### Basic facts about the stable descending sort -/

theorem insertDesc_perm (p : Nat × String) (l : List (Nat × String)) :
    List.Perm (insertDesc p l) (p :: l) := by
  induction l with
  | nil => simp [insertDesc]
  | cons q qs ih =>
    simp only [insertDesc]
    split
    · exact List.Perm.refl _
    · exact (List.Perm.cons q ih).trans (List.Perm.swap p q qs)

theorem sortDesc_perm (l : List (Nat × String)) : List.Perm (sortDesc l) l := by
  induction l with
  | nil => simp [sortDesc]
  | cons p ps ih => exact (insertDesc_perm p (sortDesc ps)).trans (List.Perm.cons p ih)

theorem mem_insertDesc {p q : Nat × String} {l : List (Nat × String)} :
    q ∈ insertDesc p l ↔ q = p ∨ q ∈ l := by
  rw [(insertDesc_perm p l).mem_iff]; simp

theorem insertDesc_pairwise {p : Nat × String} {l : List (Nat × String)}
    (h : l.Pairwise (fun a b => b.1 ≤ a.1)) :
    (insertDesc p l).Pairwise (fun a b => b.1 ≤ a.1) := by
  induction l with
  | nil => simp [insertDesc]
  | cons q qs ih =>
    rw [List.pairwise_cons] at h
    simp only [insertDesc]
    split
    · rename_i hqp
      refine List.pairwise_cons.mpr ⟨?_, List.pairwise_cons.mpr ⟨h.1, h.2⟩⟩
      intro r hr
      rcases List.mem_cons.mp hr with rfl | hr
      · exact hqp
      · exact (h.1 r hr).trans hqp
    · rename_i hqp
      refine List.pairwise_cons.mpr ⟨?_, ih h.2⟩
      intro r hr
      rcases mem_insertDesc.mp hr with rfl | hr
      · exact Nat.le_of_lt (Nat.lt_of_not_le hqp)
      · exact h.1 r hr

theorem sortDesc_pairwise (l : List (Nat × String)) :
    (sortDesc l).Pairwise (fun a b => b.1 ≤ a.1) := by
  induction l with
  | nil => simp [sortDesc]
  | cons p ps ih => exact insertDesc_pairwise ih

/-- Stability of the insertion step, expressed through `filter` at a fixed
score: the pairs of score `c` keep their relative order, with the inserted
pair in front exactly when its own score is `c`. -/
theorem filter_insertDesc (c : Nat) (p : Nat × String) (l : List (Nat × String)) :
    (insertDesc p l).filter (fun q => q.1 == c)
      = if p.1 = c then p :: l.filter (fun q => q.1 == c)
        else l.filter (fun q => q.1 == c) := by
  induction l with
  | nil => by_cases hp : p.1 = c <;> simp [insertDesc, hp]
  | cons q qs ih =>
    simp only [insertDesc]
    by_cases hqp : q.1 ≤ p.1
    · rw [if_pos hqp]
      by_cases hp : p.1 = c <;> simp [hp, List.filter_cons]
    · rw [if_neg hqp]
      by_cases hp : p.1 = c
      · have hq : ¬ q.1 = c := by omega
        simp [List.filter_cons, hq, ih, hp]
      · simp [List.filter_cons, ih, hp]

/-- Stability of the whole sort: at every fixed score `c`, sorting does not
change the subsequence of pairs whose score is `c`. -/
theorem filter_sortDesc (c : Nat) (l : List (Nat × String)) :
    (sortDesc l).filter (fun q => q.1 == c) = l.filter (fun q => q.1 == c) := by
  induction l with
  | nil => simp [sortDesc]
  | cons p ps ih =>
    simp only [sortDesc]
    rw [filter_insertDesc]
    by_cases hp : p.1 = c <;> simp [hp, List.filter_cons, ih]

theorem mem_sortDesc {p : Nat × String} {l : List (Nat × String)} :
    p ∈ sortDesc l ↔ p ∈ l := (sortDesc_perm l).mem_iff

/-! ### Facts about the whitespace-normalization model -/

theorem pyWordsAux_ne_nil {l : List Char} {acc : List Char} (h : acc ≠ []) :
    pyWordsAux l acc ≠ [] := by
  induction l generalizing acc with
  | nil => simp [pyWordsAux, h]
  | cons c cs ih =>
    simp only [pyWordsAux]
    split
    · simp [List.isEmpty_iff, h]
    · exact ih (by simp)

theorem dropTrailWS_head {l : List Char} (h : dropTrailWS l ≠ []) :
    (dropTrailWS l).head? = l.head? := by
  cases l with
  | nil => rfl
  | cons c cs =>
    simp only [dropTrailWS] at h ⊢
    cases hr : dropTrailWS cs with
    | nil =>
      simp only [hr] at h ⊢
      split at h
      · exact absurd rfl h
      · simp_all
    | cons d ds => simp [hr]

theorem head_dropWhile_not_ws : ∀ {l : List Char} {c : Char} {cs : List Char},
    l.dropWhile (fun c => c.isWhitespace) = c :: cs → c.isWhitespace = false := by
  intro l
  induction l with
  | nil => intro c cs h; simp [List.dropWhile] at h
  | cons a as ih =>
    intro c cs h
    by_cases ha : a.isWhitespace
    · rw [List.dropWhile_cons_of_pos (by simp [ha])] at h
      exact ih h
    · rw [List.dropWhile_cons_of_neg (by simp [ha])] at h
      cases h
      simpa using ha

/-- A stripped, non-blank sentence starts with a non-whitespace character,
so splitting it into words yields at least one word. -/
theorem pyWords_pyStripped_ne_nil {s : String} (h : pyStripped s ≠ []) :
    pyWords (pyStripped s) ≠ [] := by
  unfold pyStripped at *
  cases hl : dropTrailWS (s.data.dropWhile (fun c => c.isWhitespace)) with
  | nil => exact absurd hl h
  | cons c cs =>
    have hh := dropTrailWS_head (l := s.data.dropWhile (fun c => c.isWhitespace))
      (by rw [hl]; simp)
    rw [hl] at hh
    cases hd : (s.data.dropWhile (fun c => c.isWhitespace)) with
    | nil => rw [hd] at hh; simp at hh
    | cons d ds =>
      rw [hd] at hh
      simp only [List.head?] at hh
      have hcd : c = d := by simpa using hh
      have hws : c.isWhitespace = false := hcd ▸ head_dropWhile_not_ws hd
      simp only [pyWords, pyWordsAux, hws]
      simp only [Bool.false_eq_true, if_false, List.isEmpty_nil, if_true]
      exact pyWordsAux_ne_nil (by simp)

/-- Every word produced by the splitter is non-empty and whitespace-free. -/
theorem pyWordsAux_words {l acc : List Char} (hacc : ∀ c ∈ acc, c.isWhitespace = false) :
    ∀ w ∈ pyWordsAux l acc, w ≠ [] ∧ ∀ c ∈ w, c.isWhitespace = false := by
  induction l generalizing acc with
  | nil =>
    intro w hw
    simp only [pyWordsAux] at hw
    split at hw
    · simp at hw
    · rename_i hne
      simp only [List.mem_singleton] at hw
      subst hw
      constructor
      · simp [List.isEmpty_iff] at hne
        simpa using hne
      · intro c hc
        exact hacc c (by simpa using hc)
  | cons c cs ih =>
    intro w hw
    simp only [pyWordsAux] at hw
    by_cases hc : c.isWhitespace
    · rw [if_pos hc] at hw
      by_cases he : acc.isEmpty
      · rw [if_pos he] at hw
        exact ih (by simp) w hw
      · rw [if_neg he] at hw
        rcases List.mem_cons.mp hw with rfl | hw
        · constructor
          · simp [List.isEmpty_iff] at he
            simpa using he
          · intro d hd
            exact hacc d (by simpa using hd)
        · exact ih (by simp) w hw
    · rw [if_neg hc] at hw
      refine ih ?_ w hw
      intro d hd
      rcases List.mem_cons.mp hd with rfl | hd
      · simpa using hc
      · exact hacc d hd

theorem pyWords_words {l : List Char} :
    ∀ w ∈ pyWords l, w ≠ [] ∧ ∀ c ∈ w, c.isWhitespace = false :=
  pyWordsAux_words (by simp)

/-- Consuming a whitespace-free word prepends its characters to the
accumulator. -/
theorem pyWordsAux_append {w : List Char} (hw : ∀ c ∈ w, c.isWhitespace = false) :
    ∀ (l acc : List Char), pyWordsAux (w ++ l) acc = pyWordsAux l (w.reverse ++ acc) := by
  induction w with
  | nil => intro l acc; simp
  | cons c cs ih =>
    intro l acc
    have hc : c.isWhitespace = false := hw c (by simp)
    simp only [List.cons_append, pyWordsAux, hc, Bool.false_eq_true, if_false]
    rw [List.append_eq, ih (fun d hd => hw d (by simp [hd])) l (c :: acc)]
    simp

/-- Splitting the space-joined list of non-empty, whitespace-free words
recovers exactly those words. -/
theorem pyWords_joinSp {ws : List (List Char)}
    (h : ∀ w ∈ ws, w ≠ [] ∧ ∀ c ∈ w, c.isWhitespace = false) :
    pyWords (joinSp ws) = ws := by
  induction ws with
  | nil => rfl
  | cons w ws' ih =>
    cases ws' with
    | nil =>
      have hw := h w (by simp)
      show pyWordsAux (joinSp [w]) [] = [w]
      have : joinSp [w] = w ++ [] := by simp [joinSp]
      rw [this, pyWordsAux_append hw.2]
      simp [pyWordsAux, List.isEmpty_iff, hw.1]
    | cons v vs =>
      have hw := h w (by simp)
      show pyWordsAux (joinSp (w :: v :: vs)) [] = w :: v :: vs
      have hj : joinSp (w :: v :: vs) = w ++ (' ' :: joinSp (v :: vs)) := by
        simp [joinSp]
      rw [hj, pyWordsAux_append hw.2]
      have hsp : (' ' : Char).isWhitespace = true := by decide
      simp only [pyWordsAux, hsp, if_true, List.append_nil]
      have hne : (w.reverse).isEmpty = false := by
        simp [List.isEmpty_iff, hw.1]
      rw [if_neg (by simp [hne, List.isEmpty_iff, hw.1])]
      rw [List.reverse_reverse]
      have := ih (fun u hu => h u (by simp [hu]))
      simpa [pyWords] using this

theorem joinSp_ne_nil {ws : List (List Char)} (hne : ws ≠ [])
    (h : ∀ w ∈ ws, w ≠ []) : joinSp ws ≠ [] := by
  cases ws with
  | nil => exact absurd rfl hne
  | cons w ws' =>
    cases ws' with
    | nil => simpa [joinSp] using h w (by simp)
    | cons v vs =>
      simp only [joinSp]
      have := h w (by simp)
      intro hcontra
      rcases List.append_eq_nil.mp hcontra with ⟨h1, _⟩
      exact this h1

/-- Output of `cleanSentence` is already normalized: normalizing again is the
identity. -/
theorem normWS_cleanSentence (s : String) :
    normWS (cleanSentence s) = cleanSentence s := by
  unfold normWS cleanSentence
  rw [pyWords_joinSp pyWords_words]

theorem cleanSentence_ne_empty {s : String} (h : pyStripped s ≠ []) :
    cleanSentence s ≠ "" := by
  unfold cleanSentence
  intro hcontra
  have hdata : joinSp (pyWords (pyStripped s)) = [] := by
    have := congrArg String.data hcontra
    simpa using this
  exact joinSp_ne_nil (pyWords_pyStripped_ne_nil h)
    (fun w hw => (pyWords_words w hw).1) hdata

/-! ### Frequency model (Python `collections.Counter`) -/

/-- Number of occurrences of token `t` in the token stream. -/
def countTok (tokens : List String) (t : String) : Nat :=
  (tokens.filter (fun x => x == t)).length

/-- Distinct tokens in first-encountered order (iteration order of a
`Counter` built from the stream). -/
def dedupAux : List String → List String → List String
  | [], _ => []
  | t :: ts, seen => if t ∈ seen then dedupAux ts seen else t :: dedupAux ts (t :: seen)

def dedupFirst (tokens : List String) : List String := dedupAux tokens []

/-- Model of `Counter(tokens).most_common(n)` keeping only the tokens:
distinct tokens paired with their counts, stably sorted descending by
count, truncated to `n`.  `most_common` documents exactly this tie policy
(equal counts ordered first-encountered). -/
def topTerms (tokens : List String) (n : Nat) : List String :=
  (((sortDesc ((dedupFirst tokens).map (fun t => (countTok tokens t, t)))).take n).map
    Prod.snd)

/-! ### The summarizer state and its operations -/

/-- The external NLTK collaborators: `word_tokenize`, `sent_tokenize` and
the english stop-word list are data loaded at program start; the core
logic is parametric in them. -/
structure NLP where
  wordTok : String → List String
  sentTok : String → List String
  stopWords : List String

/-- The mutable state of `RAGSummarizer`: `self.documents` (the sentence
corpus) and `self.processed_text`. -/
structure State where
  documents : List String
  processed_text : String

/-- Keyword-overlap score: `sum(1 for word in keywords if word.lower() in
sentence.lower())` (shared by `_extract_key_points` and `ask_question`). -/
def score (keywords : List String) (sentence : String) : Nat :=
  (keywords.filter (fun w => inLower w sentence)).length

/-- The shared ranking routine of §4.3 of the design: score every corpus
sentence, retain those with `score ≥ minScore`, stable-sort descending. -/
def rankSentences (corpus : List String) (keywords : List String) (minScore : Nat) :
    List (Nat × String) :=
  sortDesc ((corpus.map (fun s => (score keywords s, s))).filter
    (fun p => decide (minScore ≤ p.1)))

/-- Numbered-list builder: the enumerate loop emitting the 1-based index,
a dot, the cleaned sentence and a blank line per item. -/
def numberedClean (i : Nat) : List String → String
  | [] => ""
  | s :: ss =>
      toString i ++ ". " ++ cleanSentence s ++ "\n\n" ++ numberedClean (i + 1) ss

/-- Bulleted-list builder: the loop emitting a bullet, the cleaned sentence and a blank line. -/
def bulletClean : List String → String
  | [] => ""
  | s :: ss => "• " ++ cleanSentence s ++ "\n\n" ++ bulletClean ss

/-- The frequency-filtered word stream of `_extract_key_points`:
`[w for w in word_tokenize(text.lower()) if w.isalpha() and w not in
stop_words and len(w) > 3]`. -/
def kwWords (nlp : NLP) (st : State) : List String :=
  (nlp.wordTok (lowerStr st.processed_text)).filter
    (fun w => pyIsAlpha w && !nlp.stopWords.contains w && decide (3 < w.length))

/-- Model of `RAGSummarizer._extract_key_points`. -/
def keyPoints (nlp : NLP) (st : State) : String :=
  let top_words := topTerms (kwWords nlp st) 10
  let key_sentences :=
    sortDesc ((st.documents.map (fun s => (score top_words s, s))).filter
      (fun p => decide (2 ≤ p.1)))
  "**KEY POINTS:**\n\n" ++ numberedClean 1 ((key_sentences.take 5).map Prod.snd)

def methodKeywords : List String :=
  ["method", "approach", "technique", "procedure", "analysis",
   "experiment", "study", "research", "data", "sample"]

def findingKeywords : List String :=
  ["result", "finding", "conclusion", "outcome", "evidence",
   "showed", "demonstrated", "found", "discovered", "revealed"]

/-- Fixed-vocabulary score used by `_extract_methodology` /
`_extract_findings`: `sum(1 for keyword in kws if keyword in
sentence.lower())`. -/
def fixedScore (keywords : List String) (sentence : String) : Nat :=
  (keywords.filter (fun k => inStr k (lowerStr sentence))).length

/-- Model of `RAGSummarizer._extract_methodology`. -/
def methodology (st : State) : String :=
  let method_sentences :=
    st.documents.filter (fun s => decide (1 ≤ fixedScore methodKeywords s))
  if method_sentences.isEmpty then
    "No clear methodology sections found in the documents."
  else
    "**METHODOLOGY:**\n\n" ++ bulletClean (method_sentences.take 7)

/-- Model of `RAGSummarizer._extract_findings`. -/
def findings (st : State) : String :=
  let finding_sentences :=
    st.documents.filter (fun s => decide (1 ≤ fixedScore findingKeywords s))
  if finding_sentences.isEmpty then
    "No clear findings sections found in the documents."
  else
    "**FINDINGS & RESULTS:**\n\n" ++ bulletClean (finding_sentences.take 7)

/-- Model of `RAGSummarizer._extract_comprehensive`. -/
def comprehensive (nlp : NLP) (st : State) : String :=
  let total_sentences := st.documents.length
  let total_words := (nlp.wordTok st.processed_text).length
  let important_sentences :=
    if 0 < total_sentences then
      st.documents.take 2 ++
        (if 4 < total_sentences then st.documents.drop (total_sentences - 2) else [])
    else []
  "**COMPREHENSIVE SUMMARY**\n\n" ++
    "*Document Statistics: " ++ toString total_sentences ++ " sentences, " ++
    toString total_words ++ " words*\n\n" ++
    "**Overview:**\n" ++ bulletClean (important_sentences.take 3) ++
    keyPoints nlp st

/-- Model of `RAGSummarizer.generate_summary` (dispatch on the summary-type string;
unknown strings fall through to the comprehensive strategy). -/
def generateSummary (nlp : NLP) (st : State) (summary_type : String) : String :=
  if st.documents.isEmpty then "No documents processed yet."
  else if summary_type = "key_points" then keyPoints nlp st
  else if summary_type = "methodology" then methodology st
  else if summary_type = "findings" then findings st
  else comprehensive nlp st

/-- Model of `RAGSummarizer.ask_question`. -/
def askQuestion (nlp : NLP) (st : State) (question : String) : String :=
  if st.documents.isEmpty then "No documents processed yet."
  else
    let question_words :=
      (nlp.wordTok (lowerStr question)).filter
        (fun w => pyIsAlpha w && !nlp.stopWords.contains w)
    if question_words.isEmpty then
      "Please ask a more specific question with keywords."
    else
      let relevant_sentences :=
        sortDesc ((st.documents.map (fun s => (score question_words s, s))).filter
          (fun p => decide (0 < p.1)))
      if relevant_sentences.isEmpty then
        "No relevant information found for your question."
      else
        "**Answer to: " ++ question ++ "**\n\n" ++
          "Based on the document content:\n\n" ++
          numberedClean 1 ((relevant_sentences.take 5).map Prod.snd)

/-- Model of `RAGSummarizer.process_documents`, starting from the already-extracted
raw texts (the loader is an excluded collaborator): join with blank lines,
normalize whitespace, sentence-split, keep non-blank sentences, clean each.
Returns `none` when there is no text (the `return False` path). -/
def processDocuments (nlp : NLP) (texts : List String) : Option State :=
  if texts.isEmpty then none
  else
    let combined_text := String.intercalate "\n\n" texts
    let processed := normWS combined_text
    let raw_sentences := nlp.sentTok processed
    some
      { documents :=
          (raw_sentences.filter (fun s => !(pyStripped s).isEmpty)).map cleanSentence
        processed_text := processed }

/-- A concrete instantiation of the external word tokenizer used in the
closed examples: split on whitespace runs. -/
def wsTok (s : String) : List String := (pyWords s.data).map (fun w => ⟨w⟩)

/-- A concrete instantiation of the external collaborators used in the
closed examples: whitespace word-splitting, whole-text sentence splitting,
and a small sample of the english stop-word list. -/
def simpleNLP : NLP :=
  { wordTok := wsTok
    sentTok := fun s => [s]
    stopWords := ["the", "is", "of", "what", "a", "on", "and", "are"] }

/-! ### Helper lemmas for the claim theorems -/

theorem sortDesc_fst {l : List (Nat × String)} {p : Nat × String}
    (f : String → Nat) (hl : ∀ q ∈ l, q.1 = f q.2) (hp : p ∈ sortDesc l) :
    p.1 = f p.2 :=
  hl p (mem_sortDesc.mp hp)

/-- Cross inequality between the kept prefix and the dropped suffix of a
descending-sorted list. -/
theorem sortDesc_take_drop (n : Nat) (l : List (Nat × String))
    {p q : Nat × String} (hp : p ∈ (sortDesc l).take n)
    (hq : q ∈ (sortDesc l).drop n) : q.1 ≤ p.1 := by
  have hpw := sortDesc_pairwise l
  rw [← List.take_append_drop n (sortDesc l)] at hpw
  exact (List.pairwise_append.mp hpw).2.2 p hp q hq

theorem ne_of_data_head {s t : String} (h : s.data.head? ≠ t.data.head?) :
    s ≠ t := fun he => h (by rw [he])

/-- A produced answer string always starts with an asterisk, so it can
never equal one of the fixed plain-text messages. -/
theorem answer_ne_of_head (q r t : String) (ht : t.data.head? ≠ some '*') :
    ("**Answer to: " ++ q ++ r ≠ t) := by
  apply ne_of_data_head
  rw [String.data_append, String.data_append, List.head?_append, List.head?_append]
  intro hcontra
  apply ht
  rw [← hcontra]
  rfl

theorem head_append_left {c : Char} (s t : String) (h : s.data.head? = some c) :
    (s ++ t).data.head? = some c := by
  rw [String.data_append, List.head?_append, h]
  rfl

/-- A produced answer string starts with an asterisk, so it never equals
the fixed more-specific-question prompt. -/
theorem big_answer_ne_prompt (q r : String) :
    "**Answer to: " ++ q ++ "**\n\n" ++ "Based on the document content:\n\n" ++ r
      ≠ "Please ask a more specific question with keywords." := by
  apply ne_of_data_head
  have h1 : ("**Answer to: " ++ q).data.head? = some '*' :=
    head_append_left _ _ (by decide)
  have h2 := head_append_left _ "**\n\n" h1
  have h3 := head_append_left _ "Based on the document content:\n\n" h2
  have h4 := head_append_left _ r h3
  rw [h4]
  decide

/-- Unfolding of `askQuestion` on a non-empty corpus: its inlined scoring
loop and stable sort coincide with the shared `rankSentences` routine at
threshold 1. -/
theorem askQuestion_eq (nlp : NLP) (st : State) (q : String)
    (h : st.documents ≠ []) :
    askQuestion nlp st q =
      (if ((nlp.wordTok (lowerStr q)).filter
            (fun w => pyIsAlpha w && !nlp.stopWords.contains w)).isEmpty then
        "Please ask a more specific question with keywords."
      else if (rankSentences st.documents
            ((nlp.wordTok (lowerStr q)).filter
              (fun w => pyIsAlpha w && !nlp.stopWords.contains w)) 1).isEmpty then
        "No relevant information found for your question."
      else
        "**Answer to: " ++ q ++ "**\n\n" ++ "Based on the document content:\n\n" ++
          numberedClean 1 (((rankSentences st.documents
            ((nlp.wordTok (lowerStr q)).filter
              (fun w => pyIsAlpha w && !nlp.stopWords.contains w)) 1).take 5).map
            Prod.snd)) := by
  have hd : st.documents.isEmpty = false := by simp [h]
  simp only [askQuestion, hd, Bool.false_eq_true, if_false]
  rfl

/-! ### The claim theorems -/

/-- C2: ranking retained (score, sentence) pairs sorts them in descending
order of score with a stable tie-break: at every fixed score the
subsequence of pairs is unchanged from corpus order; in the three-sentence
schema with the outer two sentences tied above the middle one the output
is [s0, s2, s1]; and the concrete cat/dog corpus ranks as specified. -/
theorem rankSentences_stable_desc :
    (∀ (corpus keywords : List String) (minScore : Nat),
        (rankSentences corpus keywords minScore).Pairwise (fun p q => q.1 ≤ p.1))
  ∧ (∀ (corpus keywords : List String) (minScore c : Nat),
        (rankSentences corpus keywords minScore).filter (fun p => p.1 == c)
          = ((corpus.map (fun s => (score keywords s, s))).filter
              (fun p => decide (minScore ≤ p.1))).filter (fun p => p.1 == c))
  ∧ (∀ (s0 s1 s2 : String) (keywords : List String) (minScore : Nat),
        score keywords s0 = score keywords s2 →
        score keywords s1 < score keywords s0 →
        minScore ≤ score keywords s1 →
        rankSentences [s0, s1, s2] keywords minScore
          = [(score keywords s0, s0), (score keywords s2, s2),
             (score keywords s1, s1)])
  ∧ rankSentences
        ["The cat sat on the mat.", "Dogs are loyal animals.",
         "The cat and the dog played."] ["cat", "dog"] 1
      = [(2, "The cat and the dog played."), (1, "The cat sat on the mat."),
         (1, "Dogs are loyal animals.")] := by
  refine ⟨?_, ?_, ?_, ?_⟩
  · intro corpus keywords minScore
    exact sortDesc_pairwise _
  · intro corpus keywords minScore c
    exact filter_sortDesc c _
  · intro s0 s1 s2 kw m h02 h1 hm
    have hm0 : m ≤ score kw s0 := le_trans hm (Nat.le_of_lt h1)
    have hm2 : m ≤ score kw s2 := h02 ▸ hm0
    have h21 : ¬ (score kw s2 ≤ score kw s1) := by omega
    have h20 : score kw s2 ≤ score kw s0 := by omega
    simp only [rankSentences, List.map_cons, List.map_nil, List.filter_cons,
      List.filter_nil]
    rw [if_pos (by simpa using hm0), if_pos (by simpa using hm),
      if_pos (by simpa using hm2)]
    simp only [sortDesc, insertDesc]
    rw [if_neg (by simpa using h21)]
    simp only [insertDesc]
    rw [if_pos (by simpa using h20)]
  · decide

/-- C2 witness: the three-sentence schema applied at a concrete corpus
where the first and last sentences tie with score 1 and the middle one
scores 0. -/
theorem rankSentences_stable_desc_witness :
    rankSentences ["xa", "y", "za"] ["a"] 0
      = [(1, "xa"), (1, "za"), (0, "y")] := by
  rw [rankSentences_stable_desc.2.2.1 "xa" "y" "za" ["a"] 0 (by decide) (by decide)
    (by decide)]
  decide

/-- C9: the keyword-overlap score is monotone in the keyword set — adding
a keyword never decreases the score of a fixed sentence. -/
theorem score_mono (sentence k : String) (keywords : List String) :
    score keywords sentence ≤ score (k :: keywords) sentence := by
  simp only [score, List.filter_cons]
  split
  · exact Nat.le_succ _
  · exact Nat.le_refl _

/-- C6: with no documents processed, every summary kind returns the fixed
no-documents message. -/
theorem generateSummary_empty (nlp : NLP) (st : State) (kind : String)
    (h : st.documents = []) :
    generateSummary nlp st kind = "No documents processed yet." := by
  simp [generateSummary, h]

/-- C6 witness at the empty state and one concrete kind. -/
theorem generateSummary_empty_witness :
    generateSummary simpleNLP { documents := [], processed_text := "" } "methodology"
      = "No documents processed yet." :=
  generateSummary_empty simpleNLP _ "methodology" rfl

/-- C7: on a processed (non-empty) corpus the question keyword set is the
alphabetic non-stop-word tokens of the lower-cased question — with no
minimum-length filter, unlike the length gt 3 filter of the frequency
keywords — and the fixed more-specific-question prompt is returned exactly
when that keyword set is empty. -/
theorem askQuestion_prompt_iff (nlp : NLP) (st : State) (q : String)
    (h : st.documents ≠ []) :
    askQuestion nlp st q = "Please ask a more specific question with keywords."
      ↔ (nlp.wordTok (lowerStr q)).filter
          (fun w => pyIsAlpha w && !nlp.stopWords.contains w) = [] := by
  rw [askQuestion_eq nlp st q h]
  generalize (nlp.wordTok (lowerStr q)).filter
      (fun w => pyIsAlpha w && !nlp.stopWords.contains w) = K
  by_cases hk : K = []
  · subst hk
    simp
  · have hk' : K.isEmpty = false := by
      cases K with
      | nil => exact absurd rfl hk
      | cons a as => rfl
    rw [hk']
    simp only [Bool.false_eq_true, if_false]
    constructor
    · intro hcontra
      exfalso
      split at hcontra
      · exact absurd hcontra (by decide)
      · exact absurd hcontra (big_answer_ne_prompt q _)
    · intro hcontra
      exact absurd hcontra hk

/-- C7 witness: a question made only of stop-words yields the prompt. -/
theorem askQuestion_prompt_iff_witness :
    askQuestion simpleNLP
        { documents := ["Cats purr."], processed_text := "Cats purr." } "What is the"
      = "Please ask a more specific question with keywords." :=
  (askQuestion_prompt_iff simpleNLP _ "What is the" (by decide)).mpr (by decide)

/-- C3: on a processed (non-empty) corpus, when the question yields at
least one keyword, askQuestion returns the fixed no-relevant-information
message when no sentence scores at least 1, and otherwise the top 5 of the
descending stable ranking as a numbered list under a header echoing the
question verbatim. -/
theorem askQuestion_ranking (nlp : NLP) (st : State) (q : String)
    (hd : st.documents ≠ [])
    (hk : (nlp.wordTok (lowerStr q)).filter
        (fun w => pyIsAlpha w && !nlp.stopWords.contains w) ≠ []) :
    (rankSentences st.documents
        ((nlp.wordTok (lowerStr q)).filter
          (fun w => pyIsAlpha w && !nlp.stopWords.contains w)) 1 = [] →
      askQuestion nlp st q = "No relevant information found for your question.")
  ∧ (rankSentences st.documents
        ((nlp.wordTok (lowerStr q)).filter
          (fun w => pyIsAlpha w && !nlp.stopWords.contains w)) 1 ≠ [] →
      askQuestion nlp st q
        = "**Answer to: " ++ q ++ "**\n\n" ++ "Based on the document content:\n\n" ++
          numberedClean 1 (((rankSentences st.documents
            ((nlp.wordTok (lowerStr q)).filter
              (fun w => pyIsAlpha w && !nlp.stopWords.contains w)) 1).take 5).map
            Prod.snd)) := by
  rw [askQuestion_eq nlp st q hd]
  generalize (nlp.wordTok (lowerStr q)).filter
      (fun w => pyIsAlpha w && !nlp.stopWords.contains w) = K at hk ⊢
  have hk' : K.isEmpty = false := by
    cases K with
    | nil => exact absurd rfl hk
    | cons a as => rfl
  rw [hk']
  simp only [Bool.false_eq_true, if_false]
  generalize rankSentences st.documents K 1 = R
  constructor
  · intro hr
    rw [hr]
    rfl
  · intro hr
    have hr' : R.isEmpty = false := by
      cases R with
      | nil => exact absurd rfl hr
      | cons a as => rfl
    rw [hr']
    rfl

/-- C3 witness: the cat/dog corpus answers a two-keyword question with the
numbered top matches under the echoed question header. -/
theorem askQuestion_ranking_witness :
    askQuestion simpleNLP
        { documents := ["The cat sat on the mat.", "Dogs are loyal animals.",
            "The cat and the dog played."],
          processed_text := "" } "cat dog"
      = "**Answer to: cat dog**\n\nBased on the document content:\n\n1. The cat and the dog played.\n\n2. The cat sat on the mat.\n\n3. Dogs are loyal animals.\n\n" := by
  rw [(askQuestion_ranking simpleNLP
      { documents := ["The cat sat on the mat.", "Dogs are loyal animals.",
          "The cat and the dog played."],
        processed_text := "" } "cat dog" (by decide) (by decide)).2 (by decide)]
  decide

/-- C4: for a non-empty corpus the comprehensive summary is the fixed
header with sentence and word statistics, an overview of the first 2
corpus sentences plus — exactly when the corpus has more than 4
sentences — the last 2, the combined list capped to its first 3 elements,
followed by the full key-points block. -/
theorem comprehensive_structure (nlp : NLP) (st : State)
    (h : st.documents ≠ []) :
    comprehensive nlp st =
      "**COMPREHENSIVE SUMMARY**\n\n" ++
        "*Document Statistics: " ++ toString st.documents.length ++ " sentences, " ++
        toString (nlp.wordTok st.processed_text).length ++ " words*\n\n" ++
        "**Overview:**\n" ++
        bulletClean ((st.documents.take 2 ++
          (if 4 < st.documents.length then
            st.documents.drop (st.documents.length - 2) else [])).take 3) ++
        keyPoints nlp st := by
  have h0 : 0 < st.documents.length := List.length_pos.mpr h
  simp only [comprehensive, if_pos h0]

/-- C4 witness at a five-sentence corpus, which exercises the last-2
branch and the cap to 3 overview items. -/
theorem comprehensive_structure_witness :
    comprehensive simpleNLP
        { documents := ["One ape.", "Two apes.", "Three apes.", "Four apes.",
            "Five apes."],
          processed_text := "One ape. Two apes. Three apes. Four apes. Five apes." }
      = "**COMPREHENSIVE SUMMARY**\n\n*Document Statistics: 5 sentences, 10 words*\n\n**Overview:**\n• One ape.\n\n• Two apes.\n\n• Four apes.\n\n**KEY POINTS:**\n\n" := by
  rw [comprehensive_structure simpleNLP
      { documents := ["One ape.", "Two apes.", "Three apes.", "Four apes.",
          "Five apes."],
        processed_text := "One ape. Two apes. Three apes. Four apes. Five apes." }
      (by decide)]
  decide

/-- C1 counterexample: at a concrete one-sentence corpus the comprehensive
summary formats its overview sentence with a bullet and its key-points
sub-block with numbers — the opposite of the claimed assignment: the
output predicted by the claim (numbered overview item, bulleted key-points
item) is not the actual output. -/
theorem comprehensive_format_cex :
    comprehensive simpleNLP
        { documents := ["Alpha beta gamma."], processed_text := "Alpha beta gamma." }
      = "**COMPREHENSIVE SUMMARY**\n\n*Document Statistics: 1 sentences, 3 words*\n\n**Overview:**\n• Alpha beta gamma.\n\n**KEY POINTS:**\n\n1. Alpha beta gamma.\n\n"
  ∧ comprehensive simpleNLP
        { documents := ["Alpha beta gamma."], processed_text := "Alpha beta gamma." }
      ≠ "**COMPREHENSIVE SUMMARY**\n\n*Document Statistics: 1 sentences, 3 words*\n\n**Overview:**\n1. Alpha beta gamma.\n\n**KEY POINTS:**\n\n• Alpha beta gamma.\n\n" := by
  constructor
  · decide
  · decide

/-- C1 amended: for every corpus, key-points sentences — standalone and as
the sub-block inside comprehensive — are numbered, while methodology,
findings, and the comprehensive overview sentences are bulleted. -/
theorem summary_list_formats (nlp : NLP) (st : State) :
    keyPoints nlp st
      = "**KEY POINTS:**\n\n" ++ numberedClean 1
          (((rankSentences st.documents (topTerms (kwWords nlp st) 10) 2).take 5).map
            Prod.snd)
  ∧ (st.documents.filter (fun s => decide (1 ≤ fixedScore methodKeywords s)) ≠ [] →
      methodology st
        = "**METHODOLOGY:**\n\n" ++ bulletClean
            ((st.documents.filter
              (fun s => decide (1 ≤ fixedScore methodKeywords s))).take 7))
  ∧ (st.documents.filter (fun s => decide (1 ≤ fixedScore findingKeywords s)) ≠ [] →
      findings st
        = "**FINDINGS & RESULTS:**\n\n" ++ bulletClean
            ((st.documents.filter
              (fun s => decide (1 ≤ fixedScore findingKeywords s))).take 7))
  ∧ (st.documents ≠ [] →
      comprehensive nlp st
        = "**COMPREHENSIVE SUMMARY**\n\n" ++
            "*Document Statistics: " ++ toString st.documents.length ++ " sentences, " ++
            toString (nlp.wordTok st.processed_text).length ++ " words*\n\n" ++
            "**Overview:**\n" ++
            bulletClean ((st.documents.take 2 ++
              (if 4 < st.documents.length then
                st.documents.drop (st.documents.length - 2) else [])).take 3) ++
            keyPoints nlp st) := by
  refine ⟨rfl, ?_, ?_, ?_⟩
  · intro hm
    simp only [methodology]
    generalize st.documents.filter
        (fun s => decide (1 ≤ fixedScore methodKeywords s)) = M at hm ⊢
    have hm' : M.isEmpty = false := by
      cases M with
      | nil => exact absurd rfl hm
      | cons a as => rfl
    rw [hm']
    rfl
  · intro hf
    simp only [findings]
    generalize st.documents.filter
        (fun s => decide (1 ≤ fixedScore findingKeywords s)) = F at hf ⊢
    have hf' : F.isEmpty = false := by
      cases F with
      | nil => exact absurd rfl hf
      | cons a as => rfl
    rw [hf']
    rfl
  · intro h
    have h0 : 0 < st.documents.length := List.length_pos.mpr h
    simp only [comprehensive, if_pos h0]

/-- C1 amended-claim witness: a concrete corpus with one methodology
sentence is rendered as a bulleted list. -/
theorem summary_list_formats_witness :
    methodology
        { documents := ["We use a method here.", "Nothing else."],
          processed_text := "" }
      = "**METHODOLOGY:**\n\n• We use a method here.\n\n" := by
  rw [(summary_list_formats simpleNLP
      { documents := ["We use a method here.", "Nothing else."],
        processed_text := "" }).2.1 (by decide)]
  decide

/-- C10: methodology and findings list, in original corpus order with no
sorting, the first 7 sentences scoring at least 1 against their fixed
vocabularies: the selection is a take-7 of an order-preserving filter,
hence a sublist of the corpus, and the output lists exactly it. -/
theorem methodology_findings_order (st : State) :
    ((st.documents.filter
        (fun s => decide (1 ≤ fixedScore methodKeywords s))).take 7).Sublist
      st.documents
  ∧ ((st.documents.filter
        (fun s => decide (1 ≤ fixedScore findingKeywords s))).take 7).Sublist
      st.documents
  ∧ (st.documents.filter (fun s => decide (1 ≤ fixedScore methodKeywords s)) ≠ [] →
      methodology st
        = "**METHODOLOGY:**\n\n" ++ bulletClean
            ((st.documents.filter
              (fun s => decide (1 ≤ fixedScore methodKeywords s))).take 7))
  ∧ (st.documents.filter (fun s => decide (1 ≤ fixedScore findingKeywords s)) ≠ [] →
      findings st
        = "**FINDINGS & RESULTS:**\n\n" ++ bulletClean
            ((st.documents.filter
              (fun s => decide (1 ≤ fixedScore findingKeywords s))).take 7)) := by
  refine ⟨(List.take_sublist _ _).trans (List.filter_sublist _),
    (List.take_sublist _ _).trans (List.filter_sublist _), ?_, ?_⟩
  · intro hm
    simp only [methodology]
    generalize st.documents.filter
        (fun s => decide (1 ≤ fixedScore methodKeywords s)) = M at hm ⊢
    have hm' : M.isEmpty = false := by
      cases M with
      | nil => exact absurd rfl hm
      | cons a as => rfl
    rw [hm']
    rfl
  · intro hf
    simp only [findings]
    generalize st.documents.filter
        (fun s => decide (1 ≤ fixedScore findingKeywords s)) = F at hf ⊢
    have hf' : F.isEmpty = false := by
      cases F with
      | nil => exact absurd rfl hf
      | cons a as => rfl
    rw [hf']
    rfl

/-- C10 witness: a concrete corpus with one findings sentence is listed in
corpus order. -/
theorem methodology_findings_order_witness :
    findings
        { documents := ["The result showed gains.", "Nothing else."],
          processed_text := "" }
      = "**FINDINGS & RESULTS:**\n\n• The result showed gains.\n\n" := by
  rw [(methodology_findings_order
      { documents := ["The result showed gains.", "Nothing else."],
        processed_text := "" }).2.2.2 (by decide)]
  decide

/-- C5: the top-terms operation returns at most n tokens, ordered by
descending occurrence count; every distinct token left out has a count no
larger than any returned token; and at every fixed count the underlying
stable sort preserves the first-encountered order of the distinct
tokens. -/
theorem topTerms_spec (tokens : List String) (n : Nat) :
    (topTerms tokens n).length ≤ n
  ∧ (topTerms tokens n).Pairwise
      (fun a b => countTok tokens b ≤ countTok tokens a)
  ∧ (∀ u ∈ dedupFirst tokens, u ∉ topTerms tokens n →
      ∀ t ∈ topTerms tokens n, countTok tokens u ≤ countTok tokens t)
  ∧ (∀ c, ((sortDesc ((dedupFirst tokens).map
        (fun t => (countTok tokens t, t)))).filter (fun p => p.1 == c)).map Prod.snd
      = (dedupFirst tokens).filter (fun t => countTok tokens t == c)) := by
  have hmemL : ∀ p ∈ sortDesc ((dedupFirst tokens).map
      (fun t => (countTok tokens t, t))), p.1 = countTok tokens p.2 := by
    intro p hp
    rcases List.mem_map.mp (mem_sortDesc.mp hp) with ⟨t, _, rfl⟩
    rfl
  refine ⟨?_, ?_, ?_, ?_⟩
  · simp only [topTerms, List.length_map, List.length_take]
    exact Nat.min_le_left _ _
  · have htake := List.Pairwise.sublist (List.take_sublist n _)
      (sortDesc_pairwise ((dedupFirst tokens).map (fun t => (countTok tokens t, t))))
    refine List.pairwise_map.mpr
      (List.Pairwise.imp_of_mem (fun {p q} hp hq hle => ?_) htake)
    rw [← hmemL p (List.take_subset n _ hp), ← hmemL q (List.take_subset n _ hq)]
    exact hle
  · intro u hu hnotu t ht
    have hpair : (countTok tokens u, u) ∈
        sortDesc ((dedupFirst tokens).map (fun t => (countTok tokens t, t))) :=
      mem_sortDesc.mpr (List.mem_map_of_mem _ hu)
    rw [← List.take_append_drop n (sortDesc ((dedupFirst tokens).map
      (fun t => (countTok tokens t, t))))] at hpair
    rcases List.mem_append.mp hpair with hinT | hinD
    · exact absurd (List.mem_map_of_mem Prod.snd hinT) hnotu
    · rcases List.mem_map.mp ht with ⟨p, hpT, rfl⟩
      have hple := sortDesc_take_drop n _ hpT hinD
      have hp1 : p.1 = countTok tokens p.2 := hmemL p (List.take_subset n _ hpT)
      calc countTok tokens u = (countTok tokens u, u).1 := rfl
        _ ≤ p.1 := hple
        _ = countTok tokens p.2 := hp1
  · intro c
    rw [filter_sortDesc, List.filter_map, List.map_map]
    have hsnd : (Prod.snd ∘ fun t : String => (countTok tokens t, t))
        = fun t : String => t := rfl
    rw [hsnd, List.map_id']
    rfl

/-- C5 witness: in the token stream b, a, a the dropped token b counts no
more than the returned top token a. -/
theorem topTerms_spec_witness :
    countTok ["b", "a", "a"] "b" ≤ countTok ["b", "a", "a"] "a" :=
  (topTerms_spec ["b", "a", "a"] 1).2.2.1 "b" (by decide) (by decide) "a" (by decide)

/-- C8: a successful processDocuments run yields a corpus whose elements
are all non-empty and already whitespace-normalized, listed in the order
of the sentence split of the upload-order concatenation of the texts. -/
theorem processDocuments_invariant (nlp : NLP) (texts : List String) (st : State)
    (h : processDocuments nlp texts = some st) :
    (∀ e ∈ st.documents, e ≠ "" ∧ normWS e = e)
  ∧ st.documents =
      ((nlp.sentTok (normWS (String.intercalate "\n\n" texts))).filter
        (fun s => !(pyStripped s).isEmpty)).map cleanSentence := by
  unfold processDocuments at h
  by_cases ht : texts.isEmpty
  · rw [if_pos ht] at h
    exact absurd h (by simp)
  · rw [if_neg ht] at h
    obtain rfl : st =
        { documents :=
            ((nlp.sentTok (normWS (String.intercalate "\n\n" texts))).filter
              (fun s => !(pyStripped s).isEmpty)).map cleanSentence
          processed_text := normWS (String.intercalate "\n\n" texts) } :=
      (Option.some.inj h).symm
    refine ⟨?_, rfl⟩
    intro e he
    rcases List.mem_map.mp he with ⟨s, hs, rfl⟩
    have hcond := (List.mem_filter.mp hs).2
    have hne : pyStripped s ≠ [] := by
      intro hnil
      rw [hnil] at hcond
      exact absurd hcond (by decide)
    exact ⟨cleanSentence_ne_empty hne, normWS_cleanSentence s⟩

/-- C8 witness: processing one text with doubled and trailing whitespace
yields a normalized non-empty sentence. -/
theorem processDocuments_invariant_witness :
    "Hi there." ≠ "" ∧ normWS "Hi there." = "Hi there." :=
  (processDocuments_invariant simpleNLP ["Hi  there. "]
      { documents := ["Hi there."], processed_text := "Hi there." } rfl).1
    "Hi there." (by decide)

end DocSum
